import Mathlib

/-!
Shallow embedding of the KenKen puzzle adapter (`kenken.py`).

Python dictionaries are modelled as association lists (insertion order
preserved, lookup by key).  Python `assert` failures, `KeyError` and
`IndexError` crashes are modelled as `none` / `Except.error`: a function
that can crash returns an `Option` (or `Except`), with `none`/`error`
standing for the raised exception.  The global `kenken_csp` state that the
predicate consults (`infer_assignment()` and `choices(Y)`) is threaded as
two explicit parameters: `inferences : Nat → Option Int` (the current
partial assignment) and `choices : Nat → List Int` (the current domain of
each variable).  Values are modelled as `Int` (Python ints).
-/

set_option autoImplicit false

namespace Kenken

/-- `Cage` from `kenken.py`: goal, operator string, id (the board character)
and the list of member variables, in board order. -/
structure Cage where
  goal : Int
  opr  : String
  id   : Char
  vars : List Nat
deriving DecidableEq

/-- Association-list lookup, modelling Python `dict` indexing (`d[k]`);
`none` models a `KeyError`. -/
def alookup {α β : Type} [DecidableEq α] : List (α × β) → α → Option β
  | [], _ => none
  | (k, v) :: rest, i => if k = i then some v else alookup rest i

/-- Association-list in-place value update at a key (no effect when the key
is absent), modelling mutation of a Python dict entry. -/
def aupdate {α β : Type} [DecidableEq α] : List (α × β) → α → (β → β) → List (α × β)
  | [], _, _ => []
  | (k, v) :: rest, i, f =>
    if k = i then (k, f v) :: rest else (k, v) :: aupdate rest i f

/-- The ways `Kenken.__init__` can crash: writing past row length
(`IndexError` on `cage_board[i][j]`), a goal line naming an unknown cage
(`KeyError`), a missing goal line (`IndexError` on `toks[1]`), and the
cage-arity `assert` failures. -/
inductive ConfigError where
  | indexError
  | keyError
  | parseError
  | assertArity
deriving DecidableEq

/-- One step of the cage-board scan in `Kenken.__init__`: record that cell
variable `v` belongs to cage `id`, creating the cage on first sight
(`Cage(name)` starts with `goal = -1`, `opr = ''`, empty `vars`) and
appending `v` to its `vars`. -/
def addCell (d : List (Char × Cage)) (id : Char) (v : Nat) : List (Char × Cage) :=
  match alookup d id with
  | none => d ++ [(id, { goal := -1, opr := "", id := id, vars := [v] })]
  | some _ => aupdate d id (fun c => { c with vars := c.vars ++ [v] })

/-- The cells visited by the board scan: for each row index `i < N`, each
character of the `i`-th input line with its column index `j` (a missing
line reads as the empty string). -/
def cellList (N : Nat) (board : List (List Char)) : List (Nat × Nat × Char) :=
  (List.range N).flatMap (fun i => ((board.getD i []).enum.map (fun jc => (i, jc.1, jc.2))))

/-- The board scan of `Kenken.__init__`: populate the cage dictionary cell
by cell; a column index `j ≥ N` models the `IndexError` raised by
`cage_board[i][j] = cage_id`. -/
def buildDict (N : Nat) : List (Nat × Nat × Char) → List (Char × Cage) →
    Except ConfigError (List (Char × Cage))
  | [], d => .ok d
  | (i, j, c) :: rest, d =>
    if j < N then buildDict N rest (addCell d c (i * N + j)) else .error .indexError

/-- One goal line `cage_id:goal opr`, applied to the cage dictionary:
`KeyError` when the cage id is unknown, then set `opr` and `goal`, then the
arity `assert`s (`-`/`/` need exactly 2 member cells, `=` exactly 1). -/
def applyGoal (d : List (Char × Cage)) (g : Char × Int × String) :
    Except ConfigError (List (Char × Cage)) :=
  match alookup d g.1 with
  | none => .error .keyError
  | some c =>
    let d' := aupdate d g.1 (fun c0 => { c0 with opr := g.2.2, goal := g.2.1 })
    if g.2.2 = "-" ∨ g.2.2 = "/" then
      if c.vars.length = 2 then .ok d' else .error .assertArity
    else if g.2.2 = "=" then
      if c.vars.length = 1 then .ok d' else .error .assertArity
    else .ok d'

/-- The goal loop of `Kenken.__init__`: exactly `len(cage_dict)` goal lines
are read; running out of lines models the `IndexError` on `toks[1]` when
`readline` returns the empty string. -/
def applyGoals : Nat → List (Char × Int × String) → List (Char × Cage) →
    Except ConfigError (List (Char × Cage))
  | 0, _, d => .ok d
  | _ + 1, [], _ => .error .parseError
  | n + 1, g :: rest, d =>
    match applyGoal d g with
    | .error e => .error e
    | .ok d' => applyGoals n rest d'

/-- The neighbor list `Kenken.__init__` builds for variable `v`: for each
`_ < N`, first the same-column variable (when `_ ≠ row`), then the same-row
variable (when `_ ≠ col`), with `row = v / N`, `col = v % N`. -/
def neighborsAux (N v : Nat) : List Nat :=
  (List.range N).flatMap (fun u =>
    (if u ≠ v / N then [u * N + v % N] else []) ++
    (if u ≠ v % N then [(v / N) * N + u] else []))

/-- The parsed input of `Kenken.__init__`: board size `N`, the `N` cage-id
lines, and the goal lines pre-split into `(cage_id, goal, opr)` (the
regex/`int` string processing is out of scope). -/
structure PuzzleInput where
  N : Nat
  board : List (List Char)
  goals : List (Char × Int × String)
deriving DecidableEq

/-- The data `Kenken.__init__` constructs. -/
structure Puzzle where
  N : Nat
  variableList : List Nat
  domains : List (Nat × List Int)
  neighbors : List (Nat × List Nat)
  cage_board : List (List Char)
  cage_dict : List (Char × Cage)
deriving DecidableEq

/-- `Kenken.__init__`: build the cage dictionary from the board, apply the
goal lines (with the arity asserts), and build variables, domains and the
neighbor dictionary.  `Except.error` models the constructor raising. -/
def mkPuzzle (inp : PuzzleInput) : Except ConfigError Puzzle :=
  match buildDict inp.N (cellList inp.N inp.board) [] with
  | .error e => .error e
  | .ok d0 =>
    match applyGoals d0.length inp.goals d0 with
    | .error e => .error e
    | .ok d =>
      .ok { N := inp.N
            variableList := List.range (inp.N * inp.N)
            domains := (List.range (inp.N * inp.N)).map
              (fun v => (v, (List.range inp.N).map (fun i => ((i : Int) + 1))))
            neighbors := (List.range (inp.N * inp.N)).map
              (fun v => (v, neighborsAux inp.N v))
            cage_board := inp.board.take inp.N
            cage_dict := d }

/-- `Kenken.variable_to_xy`. -/
def Puzzle.variable_to_xy (k : Puzzle) (v : Nat) : Nat × Nat :=
  (v / k.N, v % k.N)

/-- `Kenken.xy_to_variable`. -/
def Puzzle.xy_to_variable (k : Puzzle) (i j : Nat) : Nat :=
  i * k.N + j

/-- `Kenken.get_cage`: read the cage id off the board and look it up in the
cage dictionary; `none` models the `IndexError`/`KeyError` crashes. -/
def Puzzle.get_cage (k : Puzzle) (X : Nat) : Option Cage :=
  match k.cage_board.get? (X / k.N) with
  | none => none
  | some row =>
    match row.get? (X % k.N) with
    | none => none
    | some id => alookup k.cage_dict id

/-- The `fn` argument of the cage checks: `operator.add` or `operator.mul`. -/
inductive ArithOp where
  | add
  | mul
deriving DecidableEq

/-- Apply `operator.add` / `operator.mul`. -/
def ArithOp.apply : ArithOp → Int → Int → Int
  | .add, x, y => x + y
  | .mul, x, y => x * y

/-- `total = (1 if fn == operator.mul else 0)`. -/
def ArithOp.ident : ArithOp → Int
  | .add => 0
  | .mul => 1

/-- The loop of `check_add_or_mul_cage`: fold the cage members, combining
the value of each already-inferred member into the running total and
counting it as allocated. -/
def cageFold (inferences : Nat → Option Int) (fn : ArithOp) (vars : List Nat) : Int × Nat :=
  vars.foldl (fun ta V =>
    match inferences V with
    | some v => (fn.apply ta.1 v, ta.2 + 1)
    | none => ta) (fn.ident, 0)

/-- `Kenken.check_add_or_mul_cage` (the candidate arguments `a`, `B`, `b`
appear in the Python signature but are used only by commented-out code). -/
def Puzzle.check_add_or_mul_cage (k : Puzzle) (inferences : Nat → Option Int)
    (fn : ArithOp) (A : Nat) (a : Int) (B : Option Nat) (b : Option Int) : Option Bool :=
  match k.get_cage A with
  | none => none
  | some cage =>
    let ta := cageFold inferences fn cage.vars
    if ta.1 < cage.goal ∧ ta.2 < cage.vars.length then some true
    else if ta.1 = cage.goal ∧ ta.2 = cage.vars.length then some true
    else some false

/-- `Kenken.check_sub_or_div_cage`; `cage.vars[0]`/`cage.vars[1]` out of
range models the `IndexError`. -/
def Puzzle.check_sub_or_div_cage (k : Puzzle) (inferences : Nat → Option Int)
    (choices : Nat → List Int) (fn : ArithOp) (X : Nat) (x : Int) : Option Bool :=
  match k.get_cage X with
  | none => none
  | some cage =>
    match cage.vars.get? 0, cage.vars.get? 1 with
    | some A, some B =>
      let Y := if X ≠ B then B else A
      match inferences Y with
      | some y => some (decide (max x y = fn.apply (min x y) cage.goal))
      | none =>
        some ((choices Y).any (fun y => decide (max x y = fn.apply (min x y) cage.goal)))
    | _, _ => none

/-- `Kenken.check_cage_constraint`: dispatch on the cage operator; the
final `assert False` for an unknown operator is `none`. -/
def Puzzle.check_cage_constraint (k : Puzzle) (inferences : Nat → Option Int)
    (choices : Nat → List Int) (X : Nat) (x : Int) : Option Bool :=
  match k.get_cage X with
  | none => none
  | some cage =>
    if cage.opr = "+" then k.check_add_or_mul_cage inferences .add X x none none
    else if cage.opr = "-" then k.check_sub_or_div_cage inferences choices .add X x
    else if cage.opr = "*" then k.check_add_or_mul_cage inferences .mul X x none none
    else if cage.opr = "/" then k.check_sub_or_div_cage inferences choices .mul X x
    else if cage.opr = "=" then some (decide (x = cage.goal))
    else none

/-- `Kenken.constraints`.  The initial `assert A != B` is `none` on equal
variables; the two row/column guards look the neighbor lists up in the
neighbor dictionary (a missing key is a `KeyError`, hence `none`); cage
equality `cage_A == cage_B` is `Cage.__eq__`, i.e. id equality; the
different-cage branch is Python's short-circuiting `and`. -/
def Puzzle.constraints (k : Puzzle) (inferences : Nat → Option Int)
    (choices : Nat → List Int) (A : Nat) (a : Int) (B : Nat) (b : Int) : Option Bool :=
  if A = B then none
  else
    match alookup k.neighbors A with
    | none => none
    | some nA =>
      if B ∈ nA ∧ a = b then some false
      else
        match alookup k.neighbors B with
        | none => none
        | some nB =>
          if A ∈ nB ∧ a = b then some false
          else
            match k.get_cage A, k.get_cage B with
            | some cageA, some cageB =>
              if cageA.id = cageB.id then
                if cageA.opr = "+" then
                  k.check_add_or_mul_cage inferences .add A a (some B) (some b)
                else if cageA.opr = "-" then
                  some (decide (|a - b| = cageA.goal))
                else if cageA.opr = "*" then
                  k.check_add_or_mul_cage inferences .mul A a (some B) (some b)
                else if cageA.opr = "/" then
                  some (decide (max a b = min a b * cageA.goal))
                else none
              else
                match k.check_cage_constraint inferences choices A a with
                | none => none
                | some false => some false
                | some true => k.check_cage_constraint inferences choices B b
            | _, _ => none

/-- `Except` success as a boolean (construction succeeded without raising). -/
def exceptOk {ε α : Type} : Except ε α → Bool
  | .ok _ => true
  | .error _ => false

/-- Decidable equality of `Except` results, for evaluating construction
outcomes on concrete puzzles. -/
instance exceptDecEq {ε α : Type} [DecidableEq ε] [DecidableEq α] :
    DecidableEq (Except ε α) := fun x y =>
  match x, y with
  | .ok a, .ok b =>
    if h : a = b then isTrue (by rw [h])
    else isFalse (by intro hc; injection hc; exact h (by assumption))
  | .error a, .error b =>
    if h : a = b then isTrue (by rw [h])
    else isFalse (by intro hc; injection hc; exact h (by assumption))
  | .ok _, .error _ => isFalse (fun hc => Except.noConfusion hc)
  | .error _, .ok _ => isFalse (fun hc => Except.noConfusion hc)

/-- Written from the claim's words, for comparison with
`check_add_or_mul_cage`: a running total over all currently-assigned cage
members *including the hypothetical candidate values `a` and `b`*, starting
from the operator's identity element; true iff either the total is below
the goal and not all members are assigned, or all members are assigned and
the total equals the goal exactly (with `A`/`B` counting as assigned). -/
def specSameCageAddMulCheck (inferences : Nat → Option Int) (fn : ArithOp)
    (cage : Cage) (A : Nat) (a : Int) (B : Nat) (b : Int) : Bool :=
  let tb := cage.vars.foldl (fun (ta : Int × Nat) V =>
    if V = A then (fn.apply ta.1 a, ta.2 + 1)
    else if V = B then (fn.apply ta.1 b, ta.2 + 1)
    else
      match inferences V with
      | some v => (fn.apply ta.1 v, ta.2 + 1)
      | none => ta) (fn.ident, 0)
  decide ((tb.1 < cage.goal ∧ tb.2 < cage.vars.length) ∨
          (tb.1 = cage.goal ∧ tb.2 = cage.vars.length))

/-- Every cage operator of the puzzle is one of the five known ones, and
subtract/divide cages carry exactly two variables — what a well-formed
puzzle guarantees and what keeps the per-cage dispatch crash-free. -/
def validOps (k : Puzzle) : Bool :=
  k.cage_dict.all (fun e =>
    decide ((e.2.opr = "+" ∨ e.2.opr = "-" ∨ e.2.opr = "*" ∨ e.2.opr = "/" ∨ e.2.opr = "=") ∧
            ((e.2.opr = "-" ∨ e.2.opr = "/") → e.2.vars.length = 2)))

/-- Every cage dictionary entry stores a cage whose `id` field equals its
key — the invariant `Cage(name)` establishes at creation. -/
def idConsistent (k : Puzzle) : Bool :=
  k.cage_dict.all (fun e => decide (e.2.id = e.1))

/-- Mirror of the goal loop's success condition: each of the `count` goal
lines finds its cage and passes the arity `assert`s. -/
def goalsOk : Nat → List (Char × Int × String) → List (Char × Cage) → Bool
  | 0, _, _ => true
  | _ + 1, [], _ => false
  | n + 1, g :: rest, d =>
    match alookup d g.1 with
    | none => false
    | some c =>
      (if g.2.2 = "-" ∨ g.2.2 = "/" then decide (c.vars.length = 2)
       else if g.2.2 = "=" then decide (c.vars.length = 1)
       else true) &&
      goalsOk n rest (aupdate d g.1 (fun c0 => { c0 with opr := g.2.2, goal := g.2.1 }))

/-- A goal line declaring a subtract/divide cage with other than two member
cells, or a fixed-value cage with other than one member cell, measured
against the cage dictionary built from the board. -/
def badArityGoal (d : List (Char × Cage)) (g : Char × Int × String) : Bool :=
  match alookup d g.1 with
  | none => false
  | some c =>
    decide (((g.2.2 = "-" ∨ g.2.2 = "/") ∧ c.vars.length ≠ 2) ∨
            (g.2.2 = "=" ∧ c.vars.length ≠ 1))

/-- Some goal line actually read by the goal loop (the first `len(cage_dict)`
ones) declares a wrong arity for its operator. -/
def hasBadArity (d : List (Char × Cage)) (gs : List (Char × Int × String)) : Bool :=
  (gs.take d.length).any (badArityGoal d)

/-- A placeholder puzzle used as the default when destructing `Except`. -/
def emptyPuzzle : Puzzle :=
  { N := 0, variableList := [], domains := [], neighbors := [], cage_board := [], cage_dict := [] }

/-- 2×2 puzzle whose two sum cages are the diagonals: cage `A` holds cells
(0,0) and (1,1) (variables 0 and 3, not row/column neighbors), cage `B` the
other diagonal; both goals are `3+`. -/
def inpDiag : PuzzleInput :=
  { N := 2, board := [['A', 'B'], ['B', 'A']], goals := [('A', 3, "+"), ('B', 3, "+")] }

/-- The puzzle `inpDiag` constructs. -/
def puzzDiag : Puzzle := ((mkPuzzle inpDiag).toOption).getD emptyPuzzle

/-- 2×2 puzzle of four single-cell fixed-value cages. -/
def inpEq : PuzzleInput :=
  { N := 2, board := [['A', 'B'], ['C', 'D']],
    goals := [('A', 1, "="), ('B', 1, "="), ('C', 2, "="), ('D', 2, "=")] }

/-- The puzzle `inpEq` constructs. -/
def puzzEq : Puzzle := ((mkPuzzle inpEq).toOption).getD emptyPuzzle

/-- 2×2 puzzle of two horizontal subtract cages with goal 1. -/
def inpSub : PuzzleInput :=
  { N := 2, board := [['A', 'A'], ['B', 'B']], goals := [('A', 1, "-"), ('B', 1, "-")] }

/-- The puzzle `inpSub` constructs. -/
def puzzSub : Puzzle := ((mkPuzzle inpSub).toOption).getD emptyPuzzle

/-- The cage `A` of `puzzDiag`: goal 3, sum, diagonal cells 0 and 3. -/
def cageDiagA : Cage := { goal := 3, opr := "+", id := 'A', vars := [0, 3] }

/-- The cage `A` of `puzzEq`. -/
def cageEqA : Cage := { goal := 1, opr := "=", id := 'A', vars := [0] }

/-- The cage `B` of `puzzEq`. -/
def cageEqB : Cage := { goal := 1, opr := "=", id := 'B', vars := [1] }

/-- The cage `D` of `puzzEq`. -/
def cageEqD : Cage := { goal := 2, opr := "=", id := 'D', vars := [3] }

/-- The cage `A` of `puzzSub`. -/
def cageSubA : Cage := { goal := 1, opr := "-", id := 'A', vars := [0, 1] }

/-- 1×1 puzzle whose single cage carries the unknown operator `?`. -/
def inpUnknown : PuzzleInput :=
  { N := 1, board := [['A']], goals := [('A', 3, "?")] }

/-- The puzzle `inpUnknown` constructs (construction does not reject it). -/
def puzzUnknown : Puzzle := ((mkPuzzle inpUnknown).toOption).getD emptyPuzzle

/-- 1×1 puzzle declaring a subtract cage with a single member cell. -/
def inpBadArity : PuzzleInput :=
  { N := 1, board := [['A']], goals := [('A', 1, "-")] }

/-- 1×1 puzzle with a well-formed single fixed-value cage. -/
def inpGood : PuzzleInput :=
  { N := 1, board := [['A']], goals := [('A', 1, "=")] }

/-! ## Helper lemmas -/

/-- An if-then-else chain returning `some true` twice and `some false`
otherwise equals `some` of the disjunction of its two conditions. -/
theorem ite_some_true_eq_decide_or (P Q : Prop) [Decidable P] [Decidable Q] :
    ((if P then some true else if Q then some true else some false) : Option Bool)
      = some (decide (P ∨ Q)) := by
  by_cases hP : P
  · simp [hP]
  · by_cases hQ : Q <;> simp [hP, hQ]

/-! ## Claim C9 -/

/-- C9: the result of `check_add_or_mul_cage` does not depend on the
candidate value arguments `a` and `b`: two calls that differ only in the
values passed for `a` and `b` return the same result, because only values
already present in the current assignment contribute to the running
total. -/
theorem claim_C9_check_add_or_mul_ignores_candidates (k : Puzzle)
    (inferences : Nat → Option Int) (fn : ArithOp) (A : Nat) (B : Option Nat)
    (a a' : Int) (b b' : Option Int) :
    k.check_add_or_mul_cage inferences fn A a B b
      = k.check_add_or_mul_cage inferences fn A a' B b' := rfl

/-! ## Claim C10 -/

/-- C10: the cell-index conversions are mutually inverse: for every
variable `v < N*N`, `xy_to_variable (variable_to_xy v) = v`, and for every
row `i < N` and column `j < N`, `variable_to_xy (xy_to_variable i j) =
(i, j)`. -/
theorem claim_C10_cell_index_bijection (k : Puzzle) (v i j : Nat)
    (hv : v < k.N * k.N) (hi : i < k.N) (hj : j < k.N) :
    k.xy_to_variable (k.variable_to_xy v).1 (k.variable_to_xy v).2 = v ∧
    k.variable_to_xy (k.xy_to_variable i j) = (i, j) := by
  have hN : 0 < k.N := lt_of_le_of_lt (Nat.zero_le j) hj
  constructor
  · show v / k.N * k.N + v % k.N = v
    rw [Nat.mul_comm, Nat.div_add_mod]
  · show ((i * k.N + j) / k.N, (i * k.N + j) % k.N) = (i, j)
    have h1 : i * k.N + j = k.N * i + j := by ring
    rw [h1, Nat.mul_add_div hN, Nat.mul_add_mod, Nat.div_eq_of_lt hj,
      Nat.mod_eq_of_lt hj, Nat.add_zero]

/-- Witness for C10 on the constructed 2×2 puzzle. -/
theorem claim_C10_witness :
    3 < puzzDiag.N * puzzDiag.N ∧ 1 < puzzDiag.N ∧ 0 < puzzDiag.N ∧
    (puzzDiag.xy_to_variable (puzzDiag.variable_to_xy 3).1 (puzzDiag.variable_to_xy 3).2 = 3 ∧
     puzzDiag.variable_to_xy (puzzDiag.xy_to_variable 1 0) = (1, 0)) :=
  ⟨by decide, by decide, by decide,
   claim_C10_cell_index_bijection puzzDiag 3 1 0 (by decide) (by decide) (by decide)⟩

/-! ## Claim C7 -/

/-- Shared helper: the two row/column guards of `constraints` reject any
neighbor pair carrying equal values. -/
theorem constraints_neighbor_false (k : Puzzle)
    (inferences : Nat → Option Int) (choices : Nat → List Int)
    (A B : Nat) (a b : Int) (nA nB : List Nat)
    (hAB : A ≠ B)
    (hnA : alookup k.neighbors A = some nA)
    (hnB : alookup k.neighbors B = some nB)
    (hmem : B ∈ nA ∨ A ∈ nB)
    (hab : a = b) :
    k.constraints inferences choices A a B b = some false := by
  simp only [Puzzle.constraints, if_neg hAB, hnA, hnB]
  by_cases h1 : B ∈ nA
  · rw [if_pos ⟨h1, hab⟩]
  · rw [if_neg (fun hc => h1 hc.1), if_pos ⟨hmem.resolve_left h1, hab⟩]

/-- C7: for distinct variables `A`, `B` that are in the neighbor relation
(either direction) and equal candidate values, the constraint predicate
returns `false`, regardless of the current assignment and domains. -/
theorem claim_C7_neighbors_equal_values_rejected (k : Puzzle)
    (inferences : Nat → Option Int) (choices : Nat → List Int)
    (A B : Nat) (a b : Int) (nA nB : List Nat)
    (hAB : A ≠ B)
    (hnA : alookup k.neighbors A = some nA)
    (hnB : alookup k.neighbors B = some nB)
    (hmem : B ∈ nA ∨ A ∈ nB)
    (hab : a = b) :
    k.constraints inferences choices A a B b = some false :=
  constraints_neighbor_false k inferences choices A B a b nA nB hAB hnA hnB hmem hab

/-- Witness for C7: cells 0 and 1 share the top row of `puzzDiag`. -/
theorem claim_C7_witness :
    puzzDiag.constraints (fun _ => none) (fun _ => []) 0 1 1 1 = some false :=
  claim_C7_neighbors_equal_values_rejected puzzDiag (fun _ => none) (fun _ => [])
    0 1 1 1 [2, 1] [0, 3] (by decide) (by decide) (by decide) (Or.inl (by decide)) rfl

/-! ## Claim C1 -/

/-- C1 as stated is false on the code: in `puzzDiag`, for the same-cage
pair `A = 0`, `B = 3` (cage `A`, sum goal 3) with candidates `a = b = 1`
and empty assignment, the predicate returns `true`, while the claim's
described check — the running total including the hypothetical candidate
values `a` and `b` — evaluates to `false` (total 2 with all members
counted, which neither reaches the goal nor leaves members unassigned). -/
theorem claim_C1_counterexample :
    puzzDiag.get_cage 0 = some cageDiagA ∧
    puzzDiag.constraints (fun _ => none) (fun _ => []) 0 1 3 1 = some true ∧
    specSameCageAddMulCheck (fun _ => none) ArithOp.add cageDiagA 0 1 3 1 = false := by
  refine ⟨by decide, by decide, by decide⟩

/-- C1 amended: for distinct variables of the same sum or product cage
that pass the row/column check, the predicate computes the running total
over the *currently assigned* cage members only — the candidate values `a`
and `b` do not contribute — and returns `true` iff either the total is
below the goal and not all members are assigned, or all members are
assigned and the total equals the goal exactly. -/
theorem claim_C1_amended_same_cage_add_mul (k : Puzzle)
    (inferences : Nat → Option Int) (choices : Nat → List Int)
    (A B : Nat) (a b : Int) (nA nB : List Nat) (cA cB : Cage) (fn : ArithOp)
    (hAB : A ≠ B)
    (hnA : alookup k.neighbors A = some nA) (hgA : ¬(B ∈ nA ∧ a = b))
    (hnB : alookup k.neighbors B = some nB) (hgB : ¬(A ∈ nB ∧ a = b))
    (hcA : k.get_cage A = some cA) (hcB : k.get_cage B = some cB)
    (hid : cA.id = cB.id)
    (hop : (cA.opr = "+" ∧ fn = ArithOp.add) ∨ (cA.opr = "*" ∧ fn = ArithOp.mul)) :
    k.constraints inferences choices A a B b =
      some (decide (((cageFold inferences fn cA.vars).1 < cA.goal ∧
                     (cageFold inferences fn cA.vars).2 < cA.vars.length) ∨
                    ((cageFold inferences fn cA.vars).1 = cA.goal ∧
                     (cageFold inferences fn cA.vars).2 = cA.vars.length))) := by
  simp only [Puzzle.constraints, if_neg hAB, hnA, if_neg hgA, hnB, if_neg hgB,
    hcA, hcB, if_pos hid]
  rcases hop with ⟨ho, hfn⟩ | ⟨ho, hfn⟩ <;> subst hfn
  · rw [if_pos ho]
    simp only [Puzzle.check_add_or_mul_cage, hcA]
    exact ite_some_true_eq_decide_or _ _
  · rw [if_neg (show ¬cA.opr = "+" by rw [ho]; decide),
      if_neg (show ¬cA.opr = "-" by rw [ho]; decide), if_pos ho]
    simp only [Puzzle.check_add_or_mul_cage, hcA]
    exact ite_some_true_eq_decide_or _ _

/-- Witness for the amended C1 on `puzzDiag` with unassigned members and
candidate values 5 and 7 (which do not influence the result). -/
theorem claim_C1_witness :
    puzzDiag.constraints (fun _ => none) (fun _ => []) 0 5 3 7 =
      some (decide (((cageFold (fun _ => none) ArithOp.add cageDiagA.vars).1 < cageDiagA.goal ∧
                     (cageFold (fun _ => none) ArithOp.add cageDiagA.vars).2 < cageDiagA.vars.length) ∨
                    ((cageFold (fun _ => none) ArithOp.add cageDiagA.vars).1 = cageDiagA.goal ∧
                     (cageFold (fun _ => none) ArithOp.add cageDiagA.vars).2 = cageDiagA.vars.length))) :=
  claim_C1_amended_same_cage_add_mul puzzDiag (fun _ => none) (fun _ => [])
    0 3 5 7 [2, 1] [1, 2] cageDiagA cageDiagA ArithOp.add
    (by decide) (by decide) (by decide) (by decide) (by decide)
    (by decide) (by decide) rfl (Or.inl ⟨rfl, rfl⟩)

/-! ## Claim C3 -/

/-- C3 as stated is false on the code: construction of a puzzle whose cage
carries the unknown operator `?` succeeds (no configuration error is
raised), and the unknown operator instead crashes the per-variable cage
check when it is first dispatched on. -/
theorem claim_C3_counterexample :
    exceptOk (mkPuzzle inpUnknown) = true ∧
    puzzUnknown.check_cage_constraint (fun _ => none) (fun _ => []) 0 1 = none := by
  refine ⟨by decide, by decide⟩

/-- C3 amended: construction does not validate cage operators; a cage
whose operator is not one of `+ - * / =` makes the per-variable cage check
fail with an assertion error (a crash, never a `false` constraint-violation
result) when the predicate dispatches on it during search. -/
theorem claim_C3_amended_unknown_op_crashes_predicate (k : Puzzle)
    (inferences : Nat → Option Int) (choices : Nat → List Int)
    (X : Nat) (x : Int) (c : Cage)
    (hc : k.get_cage X = some c)
    (h1 : c.opr ≠ "+") (h2 : c.opr ≠ "-") (h3 : c.opr ≠ "*")
    (h4 : c.opr ≠ "/") (h5 : c.opr ≠ "=") :
    k.check_cage_constraint inferences choices X x = none := by
  simp only [Puzzle.check_cage_constraint, hc, if_neg h1, if_neg h2, if_neg h3,
    if_neg h4, if_neg h5]

/-- Witness for the amended C3 on the constructed unknown-operator puzzle. -/
theorem claim_C3_witness :
    puzzUnknown.check_cage_constraint (fun _ => none) (fun _ => []) 0 2 = none :=
  claim_C3_amended_unknown_op_crashes_predicate puzzUnknown (fun _ => none) (fun _ => [])
    0 2 { goal := 3, opr := "?", id := 'A', vars := [0] }
    (by decide) (by decide) (by decide) (by decide) (by decide) (by decide)

/-! ## Claim C2 -/

/-- C2 as stated is false on the code: in `puzzEq`, variables 0 and 1 are
in different cages and each one's own cage check succeeds with value 1, yet
the predicate returns `false`, because the row/column check (rule 1)
preempts the per-cage checks for same-row variables with equal values. -/
theorem claim_C2_counterexample :
    puzzEq.get_cage 0 = some cageEqA ∧
    puzzEq.get_cage 1 = some cageEqB ∧
    puzzEq.check_cage_constraint (fun _ => none) (fun _ => []) 0 1 = some true ∧
    puzzEq.check_cage_constraint (fun _ => none) (fun _ => []) 1 1 = some true ∧
    puzzEq.constraints (fun _ => none) (fun _ => []) 0 1 1 1 = some false := by
  refine ⟨by decide, by decide, by decide, by decide, by decide⟩

/-- C2 amended: provided the row/column check passes (the pair is not a
same-row/column pair with equal values), the predicate succeeds for two
variables of different cages iff each variable's own cage check
independently succeeds; and for a variable of a difference or quotient
cage whose partner is still unassigned, that per-variable check succeeds
iff some value remaining in the partner's domain satisfies the cage's goal
relation with the candidate value. -/
theorem claim_C2_amended_different_cages (k : Puzzle)
    (inferences : Nat → Option Int) (choices : Nat → List Int) :
    (∀ (A B : Nat) (a b : Int) (nA nB : List Nat) (cA cB : Cage), A ≠ B →
      alookup k.neighbors A = some nA → ¬(B ∈ nA ∧ a = b) →
      alookup k.neighbors B = some nB → ¬(A ∈ nB ∧ a = b) →
      k.get_cage A = some cA → k.get_cage B = some cB → cA.id ≠ cB.id →
      (k.constraints inferences choices A a B b = some true ↔
        (k.check_cage_constraint inferences choices A a = some true ∧
         k.check_cage_constraint inferences choices B b = some true))) ∧
    (∀ (X : Nat) (x : Int) (cage : Cage) (fn : ArithOp) (V0 V1 : Nat),
      k.get_cage X = some cage →
      ((cage.opr = "-" ∧ fn = ArithOp.add) ∨ (cage.opr = "/" ∧ fn = ArithOp.mul)) →
      cage.vars = [V0, V1] →
      inferences (if X ≠ V1 then V1 else V0) = none →
      (k.check_cage_constraint inferences choices X x = some true ↔
        ∃ y ∈ choices (if X ≠ V1 then V1 else V0),
          max x y = fn.apply (min x y) cage.goal)) := by
  constructor
  · intro A B a b nA nB cA cB hAB hnA hgA hnB hgB hcA hcB hid
    simp only [Puzzle.constraints, if_neg hAB, hnA, if_neg hgA, hnB, if_neg hgB,
      hcA, hcB, if_neg hid]
    cases h1 : k.check_cage_constraint inferences choices A a with
    | none => simp
    | some p => cases p <;> simp
  · intro X x cage fn V0 V1 hc hop hv hinf
    rcases hop with ⟨ho, hfn⟩ | ⟨ho, hfn⟩ <;> subst hfn
    · simp only [Puzzle.check_cage_constraint, hc,
        if_neg (show ¬cage.opr = "+" by rw [ho]; decide), if_pos ho]
      simp only [Puzzle.check_sub_or_div_cage, hc, hv]
      simp only [List.get?, hinf, Option.some.injEq, List.any_eq_true,
        decide_eq_true_eq]
    · simp only [Puzzle.check_cage_constraint, hc,
        if_neg (show ¬cage.opr = "+" by rw [ho]; decide),
        if_neg (show ¬cage.opr = "-" by rw [ho]; decide),
        if_neg (show ¬cage.opr = "*" by rw [ho]; decide), if_pos ho]
      simp only [Puzzle.check_sub_or_div_cage, hc, hv]
      simp only [List.get?, hinf, Option.some.injEq, List.any_eq_true,
        decide_eq_true_eq]

/-- Witness for the amended C2: the different-cage part on `puzzEq` with
the non-neighbor pair 0, 3, and the unassigned-partner part on the
subtract cage of `puzzSub`. -/
theorem claim_C2_witness :
    (puzzEq.constraints (fun _ => none) (fun _ => []) 0 1 3 2 = some true ↔
      (puzzEq.check_cage_constraint (fun _ => none) (fun _ => []) 0 1 = some true ∧
       puzzEq.check_cage_constraint (fun _ => none) (fun _ => []) 3 2 = some true)) ∧
    (puzzSub.check_cage_constraint (fun _ => none) (fun _ => [1, 2]) 0 1 = some true ↔
      ∃ y ∈ ([1, 2] : List Int), max (1 : Int) y = ArithOp.apply ArithOp.add (min 1 y) 1) :=
  ⟨(claim_C2_amended_different_cages puzzEq (fun _ => none) (fun _ => [])).1
      0 3 1 2 [2, 1] [1, 2] cageEqA cageEqD (by decide) (by decide) (by decide)
      (by decide) (by decide) (by decide) (by decide) (by decide),
   (claim_C2_amended_different_cages puzzSub (fun _ => none) (fun _ => [1, 2])).2
      0 1 cageSubA ArithOp.add 0 1 (by decide) (Or.inl ⟨rfl, rfl⟩) rfl rfl⟩

/-! ## Claim C8 -/

/-- Lookup in an association list whose entries pair each element of a key
list with a function of it. -/
theorem alookup_map_self {β : Type} (f : Nat → β) (xs : List Nat) (i : Nat) :
    alookup (xs.map (fun v => (v, f v))) i = if i ∈ xs then some (f i) else none := by
  induction xs with
  | nil => simp [alookup]
  | cons x rest ih =>
    simp only [List.map_cons, alookup]
    by_cases h : x = i
    · subst h; simp
    · rw [if_neg h, ih]
      by_cases h2 : i ∈ rest
      · rw [if_pos h2, if_pos (List.mem_cons_of_mem _ h2)]
      · have hnotmem : i ∉ x :: rest := by
          intro hmem
          rcases List.mem_cons.1 hmem with h3 | h3
          · exact h h3.symm
          · exact h2 h3
        rw [if_neg h2, if_neg hnotmem]

/-- Membership in a one-element list guarded by a condition. -/
theorem mem_ite_singleton {c : Prop} [Decidable c] {x B : Nat} :
    B ∈ (if c then [x] else ([] : List Nat)) ↔ c ∧ B = x := by
  by_cases h : c <;> simp [h]

/-- The neighbor list built for a variable `A < N*N` contains exactly the
other in-range variables sharing `A`'s row or column. -/
theorem mem_neighborsAux (N A B : Nat) (hA : A < N * N) :
    B ∈ neighborsAux N A ↔ (B < N * N ∧ B ≠ A ∧ (B / N = A / N ∨ B % N = A % N)) := by
  have hN : 0 < N := by
    rcases Nat.eq_zero_or_pos N with h | h
    · subst h; simp at hA
    · exact h
  have hmod : A % N < N := Nat.mod_lt _ hN
  have hdiv : A / N < N := (Nat.div_lt_iff_lt_mul hN).2 (by rw [Nat.mul_comm] at hA ⊢; exact hA)
  constructor
  · intro hB
    simp only [neighborsAux, List.mem_flatMap, List.mem_range, List.mem_append,
      mem_ite_singleton] at hB
    obtain ⟨u, hu, hcase⟩ := hB
    rcases hcase with ⟨hne, hc⟩ | ⟨hne, hc⟩
    · have hc' : B = N * u + A % N := by rw [hc]; ring
      have hBdiv : B / N = u := by
        rw [hc', Nat.mul_add_div hN, Nat.div_eq_of_lt hmod, Nat.add_zero]
      have hBmod : B % N = A % N := by
        rw [hc', Nat.mul_add_mod, Nat.mod_eq_of_lt hmod]
      refine ⟨?_, ?_, Or.inr hBmod⟩
      · have h1 : N * (u + 1) ≤ N * N := Nat.mul_le_mul_left N hu
        have h2 : B < N * (u + 1) := by
          rw [Nat.mul_succ]
          generalize N * u = m at hc' ⊢
          omega
        exact lt_of_lt_of_le h2 h1
      · intro heq
        exact hne (by rw [← heq, hBdiv])
    · have hc' : B = N * (A / N) + u := by rw [hc]; ring
      have hBdiv : B / N = A / N := by
        rw [hc', Nat.mul_add_div hN, Nat.div_eq_of_lt hu, Nat.add_zero]
      have hBmod : B % N = u := by
        rw [hc', Nat.mul_add_mod, Nat.mod_eq_of_lt hu]
      refine ⟨?_, ?_, Or.inl hBdiv⟩
      · have h1 : N * (A / N + 1) ≤ N * N := Nat.mul_le_mul_left N hdiv
        have h2 : B < N * (A / N + 1) := by
          rw [Nat.mul_succ]
          generalize N * (A / N) = m at hc' ⊢
          omega
        exact lt_of_lt_of_le h2 h1
      · intro heq
        exact hne (by rw [← heq, hBmod])
  · intro ⟨hBlt, hBA, hcase⟩
    simp only [neighborsAux, List.mem_flatMap, List.mem_range, List.mem_append,
      mem_ite_singleton]
    have hBmod : B % N < N := Nat.mod_lt _ hN
    have hBdiv : B / N < N := (Nat.div_lt_iff_lt_mul hN).2 (by rw [Nat.mul_comm] at hBlt ⊢; exact hBlt)
    have hBsplit : N * (B / N) + B % N = B := Nat.div_add_mod B N
    have hAsplit : N * (A / N) + A % N = A := Nat.div_add_mod A N
    rcases hcase with hd | hm
    · refine ⟨B % N, hBmod, Or.inr ⟨?_, ?_⟩⟩
      · intro heq
        exact hBA (by rw [← hBsplit, heq, hd, hAsplit])
      · rw [← hd, Nat.mul_comm (B / N) N]
        exact hBsplit.symm
    · refine ⟨B / N, hBdiv, Or.inl ⟨?_, ?_⟩⟩
      · intro heq
        exact hBA (by rw [← hBsplit, heq, hm, hAsplit])
      · rw [← hm, Nat.mul_comm (B / N) N]
        exact hBsplit.symm

/-- Destruct a successful construction into its two phases and the fields
of the resulting puzzle. -/
theorem mkPuzzle_ok_fields (inp : PuzzleInput) (k : Puzzle) (h : mkPuzzle inp = .ok k) :
    ∃ d0 d, buildDict inp.N (cellList inp.N inp.board) [] = .ok d0 ∧
      applyGoals d0.length inp.goals d0 = .ok d ∧
      k = { N := inp.N
            variableList := List.range (inp.N * inp.N)
            domains := (List.range (inp.N * inp.N)).map
              (fun v => (v, (List.range inp.N).map (fun i => ((i : Int) + 1))))
            neighbors := (List.range (inp.N * inp.N)).map
              (fun v => (v, neighborsAux inp.N v))
            cage_board := inp.board.take inp.N
            cage_dict := d } := by
  unfold mkPuzzle at h
  cases hb : buildDict inp.N (cellList inp.N inp.board) [] with
  | error e =>
    simp only [hb] at h
    exact Except.noConfusion h
  | ok d0 =>
    simp only [hb] at h
    cases hg : applyGoals d0.length inp.goals d0 with
    | error e =>
      simp only [hg] at h
      exact Except.noConfusion h
    | ok d =>
      simp only [hg, Except.ok.injEq] at h
      exact ⟨d0, d, rfl, hg, h.symm⟩

/-- In a constructed puzzle, the neighbor dictionary has an entry exactly
for each in-range variable, holding its built neighbor list. -/
theorem neighbors_lookup_of_mk (inp : PuzzleInput) (k : Puzzle) (A : Nat) (nA : List Nat)
    (hk : mkPuzzle inp = .ok k) (hnA : alookup k.neighbors A = some nA) :
    A < inp.N * inp.N ∧ nA = neighborsAux inp.N A ∧ k.N = inp.N := by
  obtain ⟨d0, d, _, _, hkeq⟩ := mkPuzzle_ok_fields inp k hk
  subst hkeq
  rw [alookup_map_self] at hnA
  by_cases hA : A ∈ List.range (inp.N * inp.N)
  · rw [if_pos hA] at hnA
    simp only [Option.some.injEq] at hnA
    exact ⟨List.mem_range.1 hA, hnA.symm, rfl⟩
  · rw [if_neg hA] at hnA
    exact absurd hnA (by simp)

/-- C8: the neighbor relation built at construction is symmetric: for
every pair of variables of the constructed puzzle, `B` is in `A`'s
neighbor list iff `A` is in `B`'s. -/
theorem claim_C8_neighbors_symmetric (inp : PuzzleInput) (k : Puzzle)
    (A B : Nat) (nA nB : List Nat)
    (hk : mkPuzzle inp = .ok k)
    (hnA : alookup k.neighbors A = some nA)
    (hnB : alookup k.neighbors B = some nB) :
    (B ∈ nA ↔ A ∈ nB) := by
  obtain ⟨hAlt, hnAeq, _⟩ := neighbors_lookup_of_mk inp k A nA hk hnA
  obtain ⟨hBlt, hnBeq, _⟩ := neighbors_lookup_of_mk inp k B nB hk hnB
  subst hnAeq hnBeq
  rw [mem_neighborsAux _ _ _ hAlt, mem_neighborsAux _ _ _ hBlt]
  constructor
  · intro ⟨h1, h2, h3⟩
    exact ⟨hAlt, fun he => h2 he.symm, h3.imp Eq.symm Eq.symm⟩
  · intro ⟨h1, h2, h3⟩
    exact ⟨hBlt, fun he => h2 he.symm, h3.imp Eq.symm Eq.symm⟩

/-- Witness for C8 on the constructed 2×2 puzzle. -/
theorem claim_C8_witness :
    ((1 : Nat) ∈ [2, 1] ↔ (0 : Nat) ∈ [0, 3]) :=
  claim_C8_neighbors_symmetric inpDiag puzzDiag 0 1 [2, 1] [0, 3]
    (by decide) (by decide) (by decide)

/-! ## Claim C5 -/

/-- Updating one key of an association list changes only that key's value,
through the update function. -/
theorem alookup_aupdate {β : Type} (d : List (Char × β)) (i j : Char) (f : β → β) :
    alookup (aupdate d i f) j = if j = i then (alookup d j).map f else alookup d j := by
  induction d with
  | nil =>
    by_cases h : j = i <;> simp [alookup, aupdate, h]
  | cons e rest ih =>
    obtain ⟨k0, v0⟩ := e
    simp only [aupdate]
    by_cases hk : k0 = i
    · subst hk
      by_cases hj : k0 = j
      · subst hj
        simp [alookup]
      · simp [alookup, hj, if_neg (fun hc : j = k0 => hj hc.symm)]
    · simp only [if_neg hk, alookup]
      by_cases hj : k0 = j
      · subst hj
        simp [alookup, if_neg (fun hc : k0 = i => hk hc)]
      · rw [if_neg hj, if_neg hj, ih]

/-- The goal loop succeeds exactly when `goalsOk` says so. -/
theorem exceptOk_applyGoals : ∀ (n : Nat) (gs : List (Char × Int × String))
    (d : List (Char × Cage)), exceptOk (applyGoals n gs d) = goalsOk n gs d := by
  intro n
  induction n with
  | zero => intro gs d; rfl
  | succ n ih =>
    intro gs d
    cases gs with
    | nil => rfl
    | cons g rest =>
      cases hl : alookup d g.1 with
      | none => simp only [applyGoals, goalsOk, applyGoal, hl]; rfl
      | some c =>
        simp only [applyGoals, goalsOk, applyGoal, hl]
        by_cases h1 : g.2.2 = "-" ∨ g.2.2 = "/"
        · rw [if_pos h1, if_pos h1]
          by_cases h2 : c.vars.length = 2
          · simp [h2, ih]
          · simp [h2, exceptOk]
        · rw [if_neg h1, if_neg h1]
          by_cases h3 : g.2.2 = "="
          · rw [if_pos h3, if_pos h3]
            by_cases h4 : c.vars.length = 1
            · simp [h4, ih]
            · simp [h4, exceptOk]
          · rw [if_neg h3, if_neg h3]
            simp [ih]

/-- When some goal line read by the loop declares a wrong arity (measured
against the cage dictionary built from the board), the loop's success
condition fails; the assignment-of-goals steps only rewrite operators and
goals, so member lists stay as built. -/
theorem goalsOk_false_of_badArity (d0 : List (Char × Cage)) :
    ∀ (n : Nat) (gs : List (Char × Int × String)) (d : List (Char × Cage)),
    (∀ id, (alookup d id).map Cage.vars = (alookup d0 id).map Cage.vars) →
    (gs.take n).any (badArityGoal d0) = true → goalsOk n gs d = false := by
  intro n
  induction n with
  | zero => intro gs d _ hbad; simp at hbad
  | succ n ih =>
    intro gs d hsv hbad
    cases gs with
    | nil => rfl
    | cons g rest =>
      simp only [List.take_succ_cons, List.any_cons, Bool.or_eq_true] at hbad
      cases hl : alookup d g.1 with
      | none => simp only [goalsOk, hl]
      | some c =>
        simp only [goalsOk, hl]
        rcases hbad with hbad | hbad
        · unfold badArityGoal at hbad
          cases hl0 : alookup d0 g.1 with
          | none => rw [hl0] at hbad; simp at hbad
          | some c0 =>
            rw [hl0] at hbad
            simp only [decide_eq_true_eq] at hbad
            have hv : c.vars = c0.vars := by
              have := hsv g.1
              rw [hl, hl0] at this
              simpa using this
            rcases hbad with ⟨hop, hlen⟩ | ⟨hop, hlen⟩
            · rw [if_pos hop, decide_eq_false (by rw [hv]; exact hlen)]
              rfl
            · have hne : ¬(g.2.2 = "-" ∨ g.2.2 = "/") := by
                rw [hop]; decide
              rw [if_neg hne, if_pos hop, decide_eq_false (by rw [hv]; exact hlen)]
              rfl
        · have hrec : goalsOk n rest
              (aupdate d g.1 (fun c0 => { c0 with opr := g.2.2, goal := g.2.1 })) = false := by
            refine ih rest _ ?_ hbad
            intro id
            rw [alookup_aupdate]
            by_cases hid : id = g.1
            · rw [if_pos hid, hid, ← hsv g.1]
              cases alookup d g.1 <;> rfl
            · rw [if_neg hid]
              exact hsv id
          rw [hrec, Bool.and_false]

/-- Successful construction reduces to the goal loop succeeding, once the
board scan has succeeded. -/
theorem exceptOk_mkPuzzle (inp : PuzzleInput) (d0 : List (Char × Cage))
    (hb : buildDict inp.N (cellList inp.N inp.board) [] = .ok d0) :
    exceptOk (mkPuzzle inp) = goalsOk d0.length inp.goals d0 := by
  unfold mkPuzzle
  rw [← exceptOk_applyGoals]
  cases hg : applyGoals d0.length inp.goals d0 with
  | error e => simp only [hb, hg, exceptOk]
  | ok d => simp only [hb, hg, exceptOk]

/-- C5: once the board scan has built the cage dictionary, construction
fails whenever some goal line read by the loop declares a subtract or
divide cage with other than exactly 2 member cells, or a fixed-value cage
with other than exactly 1; and construction succeeds for well-formed goal
lists (each read goal line finds its cage and passes the arity checks). -/
theorem claim_C5_arity_validation (inp : PuzzleInput) (d0 : List (Char × Cage))
    (hb : buildDict inp.N (cellList inp.N inp.board) [] = .ok d0) :
    (hasBadArity d0 inp.goals = true → exceptOk (mkPuzzle inp) = false) ∧
    (goalsOk d0.length inp.goals d0 = true → exceptOk (mkPuzzle inp) = true) := by
  constructor
  · intro hbad
    rw [exceptOk_mkPuzzle inp d0 hb]
    exact goalsOk_false_of_badArity d0 d0.length inp.goals d0 (fun _ => rfl) hbad
  · intro hok
    rw [exceptOk_mkPuzzle inp d0 hb]
    exact hok

/-- Witness for C5: the malformed one-cell subtract cage is rejected and
the well-formed one-cell fixed-value cage is accepted. -/
theorem claim_C5_witness :
    exceptOk (mkPuzzle inpBadArity) = false ∧ exceptOk (mkPuzzle inpGood) = true :=
  ⟨(claim_C5_arity_validation inpBadArity
      [('A', { goal := -1, opr := "", id := 'A', vars := [0] })] (by decide)).1 (by decide),
   (claim_C5_arity_validation inpGood
      [('A', { goal := -1, opr := "", id := 'A', vars := [0] })] (by decide)).2 (by decide)⟩

/-! ## Claim C6: construction invariants -/

/-- A successful association-list lookup returns a stored entry. -/
theorem alookup_mem {β : Type} {d : List (Char × β)} {i : Char} {v : β}
    (h : alookup d i = some v) : (i, v) ∈ d := by
  induction d with
  | nil => simp [alookup] at h
  | cons e rest ih =>
    obtain ⟨k0, v0⟩ := e
    simp only [alookup] at h
    by_cases hk : k0 = i
    · rw [if_pos hk] at h
      simp only [Option.some.injEq] at h
      subst hk h
      exact List.mem_cons_self _ _
    · rw [if_neg hk] at h
      exact List.mem_cons_of_mem _ (ih h)

/-- Entries of an updated association list: each is either an original
entry or the first entry at the updated key, passed through the update. -/
theorem mem_aupdate {β : Type} {d : List (Char × β)} {i : Char} {f : β → β}
    {p : Char × β} (h : p ∈ aupdate d i f) :
    p ∈ d ∨ ∃ b, alookup d i = some b ∧ p = (i, f b) := by
  induction d with
  | nil => simp [aupdate] at h
  | cons e rest ih =>
    obtain ⟨k0, v0⟩ := e
    simp only [aupdate] at h
    by_cases hk : k0 = i
    · rw [if_pos hk] at h
      subst hk
      rcases List.mem_cons.1 h with h1 | h1
      · exact Or.inr ⟨v0, by simp [alookup], h1⟩
      · exact Or.inl (List.mem_cons_of_mem _ h1)
    · rw [if_neg hk] at h
      rcases List.mem_cons.1 h with h1 | h1
      · exact Or.inl (h1 ▸ List.mem_cons_self _ _)
      · rcases ih h1 with h2 | ⟨b, hb, hp⟩
        · exact Or.inl (List.mem_cons_of_mem _ h2)
        · exact Or.inr ⟨b, by simp [alookup, if_neg hk, hb], hp⟩

/-- Lookup ignores appended entries when the key is already present. -/
theorem alookup_append_left {β : Type} {d : List (Char × β)} {i : Char} {v : β}
    (e : List (Char × β)) (h : alookup d i = some v) : alookup (d ++ e) i = some v := by
  induction d with
  | nil => simp [alookup] at h
  | cons x rest ih =>
    obtain ⟨k0, v0⟩ := x
    simp only [alookup] at h ⊢
    by_cases hk : k0 = i
    · rwa [if_pos hk] at h ⊢
    · rw [if_neg hk] at h ⊢
      exact ih h

/-- Lookup finds a freshly appended entry when the key was absent. -/
theorem alookup_append_right {β : Type} {d : List (Char × β)} {i : Char} {v : β}
    (h : alookup d i = none) : alookup (d ++ [(i, v)]) i = some v := by
  induction d with
  | nil => simp [alookup]
  | cons x rest ih =>
    obtain ⟨k0, v0⟩ := x
    simp only [alookup] at h ⊢
    by_cases hk : k0 = i
    · rw [if_pos hk] at h
      exact absurd h (by simp)
    · rw [if_neg hk] at h ⊢
      exact ih h

/-- Recording a cell preserves every existing cage's member list up to
extension. -/
theorem addCell_preserves {d : List (Char × Cage)} {id : Char} {cg : Cage}
    (c : Char) (v : Nat) (h : alookup d id = some cg) :
    ∃ cg', alookup (addCell d c v) id = some cg' ∧ cg.vars ⊆ cg'.vars := by
  unfold addCell
  cases hc : alookup d c with
  | none => exact ⟨cg, alookup_append_left _ h, fun x hx => hx⟩
  | some c0 =>
    rw [alookup_aupdate]
    by_cases hid : id = c
    · rw [if_pos hid, h]
      exact ⟨_, rfl, fun x hx => List.mem_append_left _ hx⟩
    · rw [if_neg hid, h]
      exact ⟨cg, rfl, fun x hx => hx⟩

/-- Recording a cell makes its variable a member of its cage. -/
theorem addCell_adds {d : List (Char × Cage)} (c : Char) (v : Nat) :
    ∃ cg', alookup (addCell d c v) c = some cg' ∧ v ∈ cg'.vars := by
  unfold addCell
  cases hc : alookup d c with
  | none => exact ⟨_, alookup_append_right hc, by simp⟩
  | some c0 =>
    rw [alookup_aupdate, if_pos rfl, hc]
    exact ⟨_, rfl, by simp⟩

/-- The board scan accumulates: every existing member list is preserved up
to extension, and every scanned cell's variable ends up in its cage. -/
theorem buildDict_vars (N : Nat) :
    ∀ (cells : List (Nat × Nat × Char)) (d d' : List (Char × Cage)),
    buildDict N cells d = .ok d' →
    ((∀ id cg, alookup d id = some cg →
        ∃ cg', alookup d' id = some cg' ∧ cg.vars ⊆ cg'.vars) ∧
     (∀ p ∈ cells, ∃ cg', alookup d' p.2.2 = some cg' ∧ (p.1 * N + p.2.1) ∈ cg'.vars)) := by
  intro cells
  induction cells with
  | nil =>
    intro d d' h
    simp only [buildDict, Except.ok.injEq] at h
    subst h
    exact ⟨fun id cg hl => ⟨cg, hl, fun x hx => hx⟩, by simp⟩
  | cons p rest ih =>
    intro d d' h
    obtain ⟨i, j, c⟩ := p
    simp only [buildDict] at h
    by_cases hj : j < N
    · rw [if_pos hj] at h
      obtain ⟨ih1, ih2⟩ := ih _ _ h
      constructor
      · intro id cg hl
        obtain ⟨cg1, hl1, hs1⟩ := addCell_preserves c (i * N + j) hl
        obtain ⟨cg', hl', hs'⟩ := ih1 id cg1 hl1
        exact ⟨cg', hl', fun x hx => hs' (hs1 hx)⟩
      · intro q hq
        rcases List.mem_cons.1 hq with hq | hq
        · subst hq
          obtain ⟨cg1, hl1, hv1⟩ := addCell_adds c (i * N + j)
          obtain ⟨cg', hl', hs'⟩ := ih1 c cg1 hl1
          exact ⟨cg', hl', hs' hv1⟩
        · exact ih2 q hq
    · rw [if_neg hj] at h
      exact Except.noConfusion h

/-- A successful goal application is exactly the operator/goal update of
the named cage. -/
theorem applyGoal_ok_eq {d d' : List (Char × Cage)} {g : Char × Int × String}
    (h : applyGoal d g = .ok d') :
    d' = aupdate d g.1 (fun c0 => { c0 with opr := g.2.2, goal := g.2.1 }) := by
  unfold applyGoal at h
  cases hl : alookup d g.1 with
  | none =>
    rw [hl] at h
    exact Except.noConfusion h
  | some c =>
    rw [hl] at h
    simp only at h
    split_ifs at h <;> exact (Except.ok.inj h).symm

/-- A successful goal application with the fixed-value operator implies the
named cage has exactly one member. -/
theorem applyGoal_ok_eq_arity {d d' : List (Char × Cage)} {g : Char × Int × String}
    (h : applyGoal d g = .ok d') (hop : g.2.2 = "=") :
    ∃ c, alookup d g.1 = some c ∧ c.vars.length = 1 := by
  unfold applyGoal at h
  cases hl : alookup d g.1 with
  | none =>
    rw [hl] at h
    exact Except.noConfusion h
  | some c =>
    rw [hl] at h
    simp only at h
    have h1 : ¬(g.2.2 = "-" ∨ g.2.2 = "/") := by rw [hop]; decide
    rw [if_neg h1, if_pos hop] at h
    by_cases h4 : c.vars.length = 1
    · exact ⟨c, rfl, h4⟩
    · rw [if_neg h4] at h
      exact Except.noConfusion h

/-- The goal loop never changes any cage's member list. -/
theorem applyGoals_vars :
    ∀ (n : Nat) (gs : List (Char × Int × String)) (d d' : List (Char × Cage)),
    applyGoals n gs d = .ok d' →
    ∀ id, (alookup d' id).map Cage.vars = (alookup d id).map Cage.vars := by
  intro n
  induction n with
  | zero =>
    intro gs d d' h id
    simp only [applyGoals, Except.ok.injEq] at h
    rw [h]
  | succ n ih =>
    intro gs d d' h id
    cases gs with
    | nil => exact Except.noConfusion h
    | cons g rest =>
      simp only [applyGoals] at h
      cases ha : applyGoal d g with
      | error e => rw [ha] at h; exact Except.noConfusion h
      | ok d1 =>
        rw [ha] at h
        simp only at h
        rw [ih rest d1 d' h id, applyGoal_ok_eq ha, alookup_aupdate]
        by_cases hid : id = g.1
        · rw [if_pos hid]
          cases alookup d id <;> rfl
        · rw [if_neg hid]

/-- Invariance of an entrywise property under the goal loop, provided each
goal application preserves it. -/
theorem applyGoals_preserves (P : Char × Cage → Prop)
    (hstep : ∀ d d' g, applyGoal d g = .ok d' → (∀ p ∈ d, P p) → ∀ p ∈ d', P p) :
    ∀ (n : Nat) (gs : List (Char × Int × String)) (d d' : List (Char × Cage)),
    applyGoals n gs d = .ok d' → (∀ p ∈ d, P p) → ∀ p ∈ d', P p := by
  intro n
  induction n with
  | zero =>
    intro gs d d' h hP
    simp only [applyGoals, Except.ok.injEq] at h
    exact h ▸ hP
  | succ n ih =>
    intro gs d d' h hP
    cases gs with
    | nil => exact Except.noConfusion h
    | cons g rest =>
      simp only [applyGoals] at h
      cases ha : applyGoal d g with
      | error e => rw [ha] at h; exact Except.noConfusion h
      | ok d1 =>
        rw [ha] at h
        simp only at h
        exact ih rest d1 d' h (hstep d d1 g ha hP)

/-- Entrywise invariance under the board scan, provided `addCell` steps
preserve the property. -/
theorem buildDict_preserves (N : Nat) (P : Char × Cage → Prop)
    (hstep : ∀ d c v, (∀ p ∈ d, P p) → ∀ p ∈ addCell d c v, P p) :
    ∀ (cells : List (Nat × Nat × Char)) (d d' : List (Char × Cage)),
    buildDict N cells d = .ok d' → (∀ p ∈ d, P p) → ∀ p ∈ d', P p := by
  intro cells
  induction cells with
  | nil =>
    intro d d' h hP
    simp only [buildDict, Except.ok.injEq] at h
    exact h ▸ hP
  | cons p rest ih =>
    intro d d' h hP
    obtain ⟨i, j, c⟩ := p
    simp only [buildDict] at h
    by_cases hj : j < N
    · rw [if_pos hj] at h
      exact ih _ _ h (hstep d c (i * N + j) hP)
    · rw [if_neg hj] at h
      exact Except.noConfusion h

/-- Every entry of the cage dictionary of a constructed puzzle stores a
cage whose `id` equals its key. -/
theorem cage_dict_id_consistent {inp : PuzzleInput} {k : Puzzle}
    (hk : mkPuzzle inp = .ok k) : ∀ p ∈ k.cage_dict, (p.2 : Cage).id = p.1 := by
  obtain ⟨d0, d, hb, hg, hkeq⟩ := mkPuzzle_ok_fields inp k hk
  have hstep_add : ∀ d c v, (∀ p ∈ d, (p.2 : Cage).id = p.1) →
      ∀ p ∈ addCell d c v, (p.2 : Cage).id = p.1 := by
    intro d c v hP p hp
    unfold addCell at hp
    cases hc : alookup d c with
    | none =>
      rw [hc] at hp
      rcases List.mem_append.1 hp with h1 | h1
      · exact hP p h1
      · simp only [List.mem_singleton] at h1
        subst h1
        rfl
    | some c0 =>
      rw [hc] at hp
      rcases mem_aupdate hp with h1 | ⟨b, hb1, hp1⟩
      · exact hP p h1
      · subst hp1
        exact hP (c, b) (alookup_mem hb1)
  have h0 : ∀ p ∈ d0, (p.2 : Cage).id = p.1 :=
    buildDict_preserves inp.N _ hstep_add _ [] d0 hb (by simp)
  have hstep_goal : ∀ d d' g, applyGoal d (g : Char × Int × String) = .ok d' →
      (∀ p ∈ d, (p.2 : Cage).id = p.1) → ∀ p ∈ d', (p.2 : Cage).id = p.1 := by
    intro d d' g ha hP p hp
    rw [applyGoal_ok_eq ha] at hp
    rcases mem_aupdate hp with h1 | ⟨b, hb1, hp1⟩
    · exact hP p h1
    · subst hp1
      exact hP (g.1, b) (alookup_mem hb1)
  have hd : ∀ p ∈ d, (p.2 : Cage).id = p.1 :=
    applyGoals_preserves _ hstep_goal d0.length inp.goals d0 d hg h0
  rw [hkeq]
  exact hd

/-- Every fixed-value cage of a constructed puzzle's dictionary has exactly
one member variable. -/
theorem cage_dict_eq_arity {inp : PuzzleInput} {k : Puzzle}
    (hk : mkPuzzle inp = .ok k) :
    ∀ p ∈ k.cage_dict, (p.2 : Cage).opr = "=" → (p.2 : Cage).vars.length = 1 := by
  obtain ⟨d0, d, hb, hg, hkeq⟩ := mkPuzzle_ok_fields inp k hk
  have hstep_add : ∀ d c v, (∀ p ∈ d, (p.2 : Cage).opr = "") →
      ∀ p ∈ addCell d c v, (p.2 : Cage).opr = "" := by
    intro d c v hP p hp
    unfold addCell at hp
    cases hc : alookup d c with
    | none =>
      rw [hc] at hp
      rcases List.mem_append.1 hp with h1 | h1
      · exact hP p h1
      · simp only [List.mem_singleton] at h1
        subst h1
        rfl
    | some c0 =>
      rw [hc] at hp
      rcases mem_aupdate hp with h1 | ⟨b, hb1, hp1⟩
      · exact hP p h1
      · subst hp1
        exact hP (c, b) (alookup_mem hb1)
  have h0 : ∀ p ∈ d0, (p.2 : Cage).opr = "" :=
    buildDict_preserves inp.N _ hstep_add _ [] d0 hb (by simp)
  have h0' : ∀ p ∈ d0, (p.2 : Cage).opr = "=" → (p.2 : Cage).vars.length = 1 := by
    intro p hp hop
    rw [h0 p hp] at hop
    exact absurd hop (by decide)
  have hstep_goal : ∀ d d' g, applyGoal d (g : Char × Int × String) = .ok d' →
      (∀ p ∈ d, (p.2 : Cage).opr = "=" → (p.2 : Cage).vars.length = 1) →
      ∀ p ∈ d', (p.2 : Cage).opr = "=" → (p.2 : Cage).vars.length = 1 := by
    intro d d' g ha hP p hp hop
    rw [applyGoal_ok_eq ha] at hp
    rcases mem_aupdate hp with h1 | ⟨b, hb1, hp1⟩
    · exact hP p h1 hop
    · subst hp1
      simp only at hop
      obtain ⟨c, hcl, hclen⟩ := applyGoal_ok_eq_arity ha hop
      rw [hb1] at hcl
      simp only [Option.some.injEq] at hcl
      subst hcl
      simpa using hclen
  have hd : ∀ p ∈ d, (p.2 : Cage).opr = "=" → (p.2 : Cage).vars.length = 1 :=
    applyGoals_preserves _ hstep_goal d0.length inp.goals d0 d hg h0'
  rw [hkeq]
  exact hd

/-- In a constructed puzzle, a variable whose cage lookup succeeds is a
member of the cage it maps to, and the cage is stored under the board
character the lookup went through. -/
theorem get_cage_structure {inp : PuzzleInput} {k : Puzzle} {v : Nat} {c : Cage}
    (hk : mkPuzzle inp = .ok k) (hc : k.get_cage v = some c) :
    ∃ id, alookup k.cage_dict id = some c ∧ v ∈ c.vars := by
  obtain ⟨d0, d, hb, hg, hkeq⟩ := mkPuzzle_ok_fields inp k hk
  have hN : k.N = inp.N := by rw [hkeq]
  have hboard : k.cage_board = inp.board.take inp.N := by rw [hkeq]
  have hdict : k.cage_dict = d := by rw [hkeq]
  unfold Puzzle.get_cage at hc
  cases hrow : k.cage_board.get? (v / k.N) with
  | none =>
    simp only [hrow] at hc
    exact Option.noConfusion hc
  | some row =>
    simp only [hrow] at hc
    cases hid : row.get? (v % k.N) with
    | none =>
      simp only [hid] at hc
      exact Option.noConfusion hc
    | some id =>
      simp only [hid] at hc
      refine ⟨id, hc, ?_⟩
      -- the visited cell (v / N, v % N, id) is in the board scan's cell list
      have hrow' : (inp.board.take inp.N).get? (v / inp.N) = some row := by
        rw [← hboard, ← hN]; exact hrow
      obtain ⟨hlt, _⟩ := List.get?_eq_some.1 hrow'
      rw [List.length_take] at hlt
      have hdivN : v / inp.N < inp.N := lt_of_lt_of_le hlt (min_le_left _ _)
      have hrow'' : inp.board.get? (v / inp.N) = some row := by
        rw [← List.get?_take hdivN]; exact hrow'
      have hid' : row.get? (v % inp.N) = some id := by rw [← hN]; exact hid
      obtain ⟨hjlt, _⟩ := List.get?_eq_some.1 hid'
      have hcell : (v / inp.N, v % inp.N, id) ∈ cellList inp.N inp.board := by
        unfold cellList
        rw [List.mem_flatMap]
        refine ⟨v / inp.N, List.mem_range.2 hdivN, ?_⟩
        rw [List.mem_map]
        refine ⟨(v % inp.N, id), ?_, rfl⟩
        have hgetD : inp.board.getD (v / inp.N) [] = row := by
          rw [List.getD_eq_get?, hrow'']
          rfl
        rw [hgetD, List.mk_mem_enum_iff_get?]
        exact hid'
      obtain ⟨_, hmem⟩ := buildDict_vars inp.N (cellList inp.N inp.board) [] d0 hb
      obtain ⟨cg0, hcg0, hv0⟩ := hmem _ hcell
      have hveq : v / inp.N * inp.N + v % inp.N = v := by
        rw [Nat.mul_comm, Nat.div_add_mod]
      rw [hveq] at hv0
      have hvars := applyGoals_vars d0.length inp.goals d0 d hg id
      rw [hcg0] at hvars
      rw [hdict] at hc
      rw [hc] at hvars
      have : c.vars = cg0.vars := by simpa using hvars
      rw [this]
      exact hv0

/-- C6: in a constructed puzzle (where the fixed-value arity assert has
passed), two distinct variables never share a fixed-value cage, so the
same-cage `=` dispatch of the constraint predicate — the `assert False`
branch — is unreachable. -/
theorem claim_C6_same_cage_eq_unreachable (inp : PuzzleInput) (k : Puzzle)
    (A B : Nat) (cA cB : Cage)
    (hk : mkPuzzle inp = .ok k) (hAB : A ≠ B)
    (hcA : k.get_cage A = some cA) (hcB : k.get_cage B = some cB)
    (hid : cA.id = cB.id) : cA.opr ≠ "=" := by
  obtain ⟨idA, hlA, hAv⟩ := get_cage_structure hk hcA
  obtain ⟨idB, hlB, hBv⟩ := get_cage_structure hk hcB
  have hidc := cage_dict_id_consistent hk
  have hA_id : cA.id = idA := hidc (idA, cA) (alookup_mem hlA)
  have hB_id : cB.id = idB := hidc (idB, cB) (alookup_mem hlB)
  have hideq : idA = idB := by rw [← hA_id, hid, hB_id]
  rw [hideq, hlB] at hlA
  have hcc : cA = cB := (Option.some.inj hlA).symm
  intro hop
  have hlen : cA.vars.length = 1 := by
    rw [hcc]
    exact cage_dict_eq_arity hk (idB, cB) (alookup_mem hlB) (by rw [← hcc]; exact hop)
  obtain ⟨x, hx⟩ := List.length_eq_one.1 hlen
  rw [hx] at hAv
  rw [← hcc, hx] at hBv
  simp only [List.mem_singleton] at hAv hBv
  exact hAB (hAv.trans hBv.symm)

/-- Witness for C6 on the constructed diagonal puzzle: the shared cage of
variables 0 and 3 cannot be (and is not) a fixed-value cage. -/
theorem claim_C6_witness : cageDiagA.opr ≠ "=" :=
  claim_C6_same_cage_eq_unreachable inpDiag puzzDiag 0 3 cageDiagA cageDiagA
    (by decide) (by decide) (by decide) (by decide) rfl

/-! ## Claim C4 -/

/-- A successful cage lookup goes through some cage dictionary key. -/
theorem get_cage_some_alookup {k : Puzzle} {X : Nat} {c : Cage}
    (hc : k.get_cage X = some c) : ∃ id, alookup k.cage_dict id = some c := by
  unfold Puzzle.get_cage at hc
  cases h1 : k.cage_board.get? (X / k.N) with
  | none =>
    simp only [h1] at hc
    exact Option.noConfusion hc
  | some row =>
    simp only [h1] at hc
    cases h2 : row.get? (X % k.N) with
    | none =>
      simp only [h2] at hc
      exact Option.noConfusion hc
    | some id =>
      simp only [h2] at hc
      exact ⟨id, hc⟩

/-- What `validOps` guarantees for any cage reachable by lookup. -/
theorem validOps_lookup {k : Puzzle} {id : Char} {c : Cage}
    (hv : validOps k = true) (hl : alookup k.cage_dict id = some c) :
    (c.opr = "+" ∨ c.opr = "-" ∨ c.opr = "*" ∨ c.opr = "/" ∨ c.opr = "=") ∧
    ((c.opr = "-" ∨ c.opr = "/") → c.vars.length = 2) := by
  have h := List.all_eq_true.1 hv _ (alookup_mem hl)
  rwa [decide_eq_true_eq] at h

/-- Two cage lookups returning cages with equal ids return the same cage,
under id-consistency of the dictionary (`Cage.__eq__` compares by id, and
the dictionary is keyed by id). -/
theorem get_cage_eq_of_id {k : Puzzle} {A B : Nat} {cA cB : Cage}
    (hic : idConsistent k = true)
    (hA : k.get_cage A = some cA) (hB : k.get_cage B = some cB)
    (hid : cA.id = cB.id) : cA = cB := by
  obtain ⟨idA, hlA⟩ := get_cage_some_alookup hA
  obtain ⟨idB, hlB⟩ := get_cage_some_alookup hB
  have h1 : cA.id = idA := by
    have h := List.all_eq_true.1 hic _ (alookup_mem hlA)
    rwa [decide_eq_true_eq] at h
  have h2 : cB.id = idB := by
    have h := List.all_eq_true.1 hic _ (alookup_mem hlB)
    rwa [decide_eq_true_eq] at h
  have h3 : idA = idB := by rw [← h1, hid, h2]
  rw [h3, hlB] at hlA
  exact (Option.some.inj hlA).symm

/-- The add/mul cage check only looks at the cage of its variable
argument: two variables of the same cage give the same result. -/
theorem check_add_or_mul_eq_of_cage {k : Puzzle} {X Y : Nat} {c : Cage}
    (hX : k.get_cage X = some c) (hY : k.get_cage Y = some c)
    (inferences : Nat → Option Int) (fn : ArithOp) (x y : Int)
    (oB oB' : Option Nat) (ob ob' : Option Int) :
    k.check_add_or_mul_cage inferences fn X x oB ob
      = k.check_add_or_mul_cage inferences fn Y y oB' ob' := by
  simp only [Puzzle.check_add_or_mul_cage, hX, hY]

/-- With a known operator and the subtract/divide arity guaranteed, the
per-variable cage check never crashes. -/
theorem check_cage_constraint_some {k : Puzzle} {X : Nat} {c : Cage}
    (hv : validOps k = true) (hc : k.get_cage X = some c)
    (inferences : Nat → Option Int) (choices : Nat → List Int) (x : Int) :
    ∃ p, k.check_cage_constraint inferences choices X x = some p := by
  obtain ⟨id, hl⟩ := get_cage_some_alookup hc
  obtain ⟨hops, harity⟩ := validOps_lookup hv hl
  rw [← Option.isSome_iff_exists]
  rcases hops with h | h | h | h | h
  · simp only [Puzzle.check_cage_constraint, hc, if_pos h,
      Puzzle.check_add_or_mul_cage, ite_some_true_eq_decide_or, Option.isSome_some]
  · obtain ⟨v0, v1, hv01⟩ := List.length_eq_two.1 (harity (Or.inl h))
    cases hY : inferences (if X ≠ v1 then v1 else v0) with
    | some y =>
      simp only [Puzzle.check_cage_constraint, hc,
        if_neg (show ¬c.opr = "+" by rw [h]; decide), if_pos h,
        Puzzle.check_sub_or_div_cage, hv01, List.get?, hY, Option.isSome_some]
    | none =>
      simp only [Puzzle.check_cage_constraint, hc,
        if_neg (show ¬c.opr = "+" by rw [h]; decide), if_pos h,
        Puzzle.check_sub_or_div_cage, hv01, List.get?, hY, Option.isSome_some]
  · simp only [Puzzle.check_cage_constraint, hc,
      if_neg (show ¬c.opr = "+" by rw [h]; decide),
      if_neg (show ¬c.opr = "-" by rw [h]; decide), if_pos h,
      Puzzle.check_add_or_mul_cage, ite_some_true_eq_decide_or, Option.isSome_some]
  · obtain ⟨v0, v1, hv01⟩ := List.length_eq_two.1 (harity (Or.inr h))
    cases hY : inferences (if X ≠ v1 then v1 else v0) with
    | some y =>
      simp only [Puzzle.check_cage_constraint, hc,
        if_neg (show ¬c.opr = "+" by rw [h]; decide),
        if_neg (show ¬c.opr = "-" by rw [h]; decide),
        if_neg (show ¬c.opr = "*" by rw [h]; decide), if_pos h,
        Puzzle.check_sub_or_div_cage, hv01, List.get?, hY, Option.isSome_some]
    | none =>
      simp only [Puzzle.check_cage_constraint, hc,
        if_neg (show ¬c.opr = "+" by rw [h]; decide),
        if_neg (show ¬c.opr = "-" by rw [h]; decide),
        if_neg (show ¬c.opr = "*" by rw [h]; decide), if_pos h,
        Puzzle.check_sub_or_div_cage, hv01, List.get?, hY, Option.isSome_some]
  · simp only [Puzzle.check_cage_constraint, hc,
      if_neg (show ¬c.opr = "+" by rw [h]; decide),
      if_neg (show ¬c.opr = "-" by rw [h]; decide),
      if_neg (show ¬c.opr = "*" by rw [h]; decide),
      if_neg (show ¬c.opr = "/" by rw [h]; decide), if_pos h, Option.isSome_some]

/-- C4: for a puzzle with valid operators (well-formed dictionary: ids
match their keys, operators are among the five known ones, subtract/divide
cages hold exactly two variables) and variables present in the neighbor
dictionary, the constraint predicate is commutative in its two
variable/value pairs. -/
theorem claim_C4_constraints_commutative (k : Puzzle)
    (inferences : Nat → Option Int) (choices : Nat → List Int)
    (A B : Nat) (a b : Int) (nA nB : List Nat)
    (hv : validOps k = true) (hic : idConsistent k = true)
    (hnA : alookup k.neighbors A = some nA)
    (hnB : alookup k.neighbors B = some nB) :
    k.constraints inferences choices A a B b
      = k.constraints inferences choices B b A a := by
  by_cases hab : A = B
  · subst hab
    simp [Puzzle.constraints]
  · by_cases hguard : (B ∈ nA ∨ A ∈ nB) ∧ a = b
    · rw [constraints_neighbor_false k inferences choices A B a b nA nB hab hnA hnB
        hguard.1 hguard.2,
        constraints_neighbor_false k inferences choices B A b a nB nA
        (fun h => hab h.symm) hnB hnA hguard.1.symm hguard.2.symm]
    · have hg1 : ¬(B ∈ nA ∧ a = b) := fun h => hguard ⟨Or.inl h.1, h.2⟩
      have hg2 : ¬(A ∈ nB ∧ a = b) := fun h => hguard ⟨Or.inr h.1, h.2⟩
      have hg1' : ¬(A ∈ nB ∧ b = a) := fun h => hg2 ⟨h.1, h.2.symm⟩
      have hg2' : ¬(B ∈ nA ∧ b = a) := fun h => hg1 ⟨h.1, h.2.symm⟩
      simp only [Puzzle.constraints, if_neg hab, if_neg (fun h : B = A => hab h.symm),
        hnA, hnB, if_neg hg1, if_neg hg2, if_neg hg1', if_neg hg2']
      cases hgA : k.get_cage A with
      | none =>
        cases hgB : k.get_cage B with
        | none => simp only [hgA, hgB]
        | some cB => simp only [hgA, hgB]
      | some cA =>
        cases hgB : k.get_cage B with
        | none => simp only [hgA, hgB]
        | some cB =>
          simp only [hgA, hgB]
          by_cases hid : cA.id = cB.id
          · have hcc : cA = cB := get_cage_eq_of_id hic hgA hgB hid
            subst hcc
            rw [if_pos hid, if_pos rfl]
            by_cases h1 : cA.opr = "+"
            · rw [if_pos h1, if_pos h1]
              exact check_add_or_mul_eq_of_cage hgA hgB inferences .add a b _ _ _ _
            · rw [if_neg h1, if_neg h1]
              by_cases h2 : cA.opr = "-"
              · rw [if_pos h2, if_pos h2, abs_sub_comm]
              · rw [if_neg h2, if_neg h2]
                by_cases h3 : cA.opr = "*"
                · rw [if_pos h3, if_pos h3]
                  exact check_add_or_mul_eq_of_cage hgA hgB inferences .mul a b _ _ _ _
                · rw [if_neg h3, if_neg h3]
                  by_cases h4 : cA.opr = "/"
                  · rw [if_pos h4, if_pos h4, max_comm b a, min_comm b a]
                  · rw [if_neg h4, if_neg h4]
          · rw [if_neg hid, if_neg (fun h => hid h.symm)]
            obtain ⟨pA, hpA⟩ := check_cage_constraint_some hv hgA inferences choices a
            obtain ⟨pB, hpB⟩ := check_cage_constraint_some hv hgB inferences choices b
            cases pA <;> cases pB <;> simp [hpA, hpB]

/-- Witness for C4 on the constructed diagonal puzzle. -/
theorem claim_C4_witness :
    puzzDiag.constraints (fun _ => none) (fun _ => []) 0 1 3 2
      = puzzDiag.constraints (fun _ => none) (fun _ => []) 3 2 0 1 :=
  claim_C4_constraints_commutative puzzDiag (fun _ => none) (fun _ => [])
    0 3 1 2 [2, 1] [1, 2] (by decide) (by decide) (by decide) (by decide)

end Kenken
